import Mathlib

/-!
Verification development for the `churchland_pipeline_python` acquisition
module (`src/churchland_pipeline_python/acquisition.py`).

The ingestion logic is embedded shallowly: filesystem listings, the session
table, and vendor file headers are explicit values; the external ORM insert
calls are modelled as appends to explicit row lists; the regular expressions
of the source are translated into executable character-list predicates; the
Python exceptions relevant to the claims (StopIteration from `next`, an
IndexError from `extended_headers[0]`, a raising database insert) are
modelled as explicit error outcomes threaded through the control flow.
-/

namespace Acquisition

/-- Translation of the Python regex fragment `\d{4}-\d{2}-\d{2}` matched at the
head of a character list: four digits, a hyphen, two digits, a hyphen, two
digits (further characters may follow). -/
def isDateAt : List Char → Bool
  | a :: b :: c :: d :: h1 :: e :: f :: h2 :: g :: h :: _ =>
      a.isDigit && b.isDigit && c.isDigit && d.isDigit && h1 == '-' &&
      e.isDigit && f.isDigit && h2 == '-' && g.isDigit && h.isDigit
  | _ => false

/-- Scan over all suffixes, as Python `re.search` does. -/
def containsDateAux : List Char → Bool
  | [] => false
  | c :: cs => isDateAt (c :: cs) || containsDateAux cs

/-- From acquisition.py line 123: `re.search(r'\d{4}-\d{2}-\d{2}', d) is not None`,
true when the date pattern occurs anywhere in the string. -/
def containsDatePattern (s : String) : Bool :=
  containsDateAux s.data

/-- Written from the words of the spec claim, for comparison with the code: the
entire name is exactly of the form YYYY-MM-DD (a full-string match, which is
not what `re.search` computes). -/
def isExactDate (s : String) : Bool :=
  match s.data with
  | [a, b, c, d, h1, e, f, h2, g, h] =>
      a.isDigit && b.isDigit && c.isDigit && d.isDigit && h1 == '-' &&
      e.isDigit && f.isDigit && h2 == '-' && g.isDigit && h.isDigit
  | _ => false

/-- Pattern match at the head of a character list. -/
def matchesAt : List Char → List Char → Bool
  | [], _ => true
  | _ :: _, [] => false
  | p :: ps, c :: cs => p == c && matchesAt ps cs

/-- Substring search over all suffixes. -/
def containsSubAux (pat : List Char) : List Char → Bool
  | [] => pat.isEmpty
  | c :: cs => matchesAt pat (c :: cs) || containsSubAux pat cs

/-- Python `re.search` with a pattern of plain characters; the source uses this
for `.*\.summary` (acquisition.py line 206) and `.*notes\.txt` (line 163), both
of which reduce to a substring containment test. -/
def containsSub (pat : String) (s : String) : Bool :=
  containsSubAux pat.data s.data

/-- Tail of the NSx filename regex: `_00\d\.ns\d` matched at the head of a
character list. -/
def nsxTailAt : List Char → Bool
  | '_' :: '0' :: '0' :: d1 :: '.' :: 'n' :: 's' :: d2 :: _ => d1.isDigit && d2.isDigit
  | _ => false

/-- If `pat` matches at the head of `l`, return the remainder of `l`. -/
def dropPat : List Char → List Char → Option (List Char)
  | [], l => some l
  | _ :: _, [] => none
  | p :: ps, c :: cs => if p == c then dropPat ps cs else none

/-- Alternation `(emg|neu|neu_emg)` followed by `_00\d\.ns\d`, matched at the
head of a character list (the Python engine backtracks into the third
alternative when needed, so the three alternatives are tried independently). -/
def nsxAt (l : List Char) : Bool :=
  (match dropPat ['e', 'm', 'g'] l with
    | some r => nsxTailAt r
    | none => false) ||
  (match dropPat ['n', 'e', 'u'] l with
    | some r => nsxTailAt r
    | none => false) ||
  (match dropPat ['n', 'e', 'u', '_', 'e', 'm', 'g'] l with
    | some r => nsxTailAt r
    | none => false)

/-- Suffix scan for the NSx pattern. -/
def isNsxNameAux : List Char → Bool
  | [] => false
  | c :: cs => nsxAt (c :: cs) || isNsxNameAux cs

/-- From acquisition.py line 260: `re.search(r'.*(emg|neu|neu_emg)_00\d\.ns\d', f)`. -/
def isNsxName (s : String) : Bool :=
  isNsxNameAux s.data

/-- Lexicographic comparison of character lists by code point, the order used
by Python `sorted` on strings. -/
def lexLe : List Char → List Char → Bool
  | [], _ => true
  | _ :: _, [] => false
  | a :: as, b :: bs =>
      if a.toNat < b.toNat then true
      else if b.toNat < a.toNat then false
      else lexLe as bs

/-- Lexicographic string comparison by code point. -/
def strLe (a b : String) : Bool :=
  lexLe a.data b.data

/-- Insert into a sorted list, keeping it sorted. -/
def orderedIns (x : String) : List String → List String
  | [] => [x]
  | y :: ys => if strLe x y then x :: y :: ys else y :: orderedIns x ys

/-- From acquisition.py line 116: `sorted(list(os.listdir(raw_path)))`, an
insertion sort with respect to the lexicographic order. -/
def sortListing : List String → List String
  | [] => []
  | x :: xs => orderedIns x (sortListing xs)

/-- Row of the Session table (primary key: session date, monkey; plus the rig
and task attributes inserted by `Session.populate`, acquisition.py line 159). -/
structure SessionRow where
  session_date : String
  monkey : String
  rig : String
  task : String
deriving DecidableEq

/-- Row of the Session.Notes part table (acquisition.py lines 64-71, 168). -/
structure NotesRow where
  session_date : String
  monkey : String
  session_notes_id : Nat
  session_notes : String
deriving DecidableEq

/-- Row of the Session.Hardware part table (acquisition.py lines 51-56, 171). -/
structure HardwareRow where
  session_date : String
  monkey : String
  hardware : String
deriving DecidableEq

/-- Rows and console messages produced while processing session dates. -/
structure DateOut where
  sessions : List SessionRow
  notes : List NotesRow
  hardware : List HardwareRow
  messages : List String
deriving DecidableEq

/-- Filesystem environment of `Session.populate`: the listing of the raw path,
the per-date listing of each session directory, and the contents of a notes
file (date, file name). -/
structure RawEnv where
  raw_dir : List String
  session_files : String → List String
  read_notes : String → String → String

/-- From acquisition.py lines 116-123: sort the raw directory listing; if a
user date list was given restrict to it (`if dates:` — Python truthiness, so
an empty list falls through to the regex branch), otherwise keep entries in
which the date pattern occurs. -/
def selectDates (raw_dir dates : List String) : List String :=
  let sorted_dir := sortListing raw_dir
  if !dates.isEmpty then sorted_dir.filter (fun d => dates.contains d)
  else sorted_dir.filter containsDatePattern

/-- From acquisition.py line 126: `not self & {'session_date': date}` — the
restriction is by date alone, over the whole Session table, with no monkey
attribute in the restriction dict. -/
def notInTable (table : List SessionRow) (date : String) : Bool :=
  !(table.any fun r => r.session_date == date)

/-- Candidate dates after excluding those already present in the table
(acquisition.py lines 114-126). -/
def newSessionDates (table : List SessionRow) (raw_dir dates : List String) : List String :=
  (selectDates raw_dir dates).filter (notInTable table)

/-- From acquisition.py lines 128-171, one iteration of the date loop for the
Speedgoat / Cerebus configuration fixed by the source (behavior_dir =
"speedgoat", ephys_dir = "blackrock"): the two `next(filter(...))` existence
checks whose StopIteration is caught and printed, then the Session insert, the
notes lookup (`next(x for x in session_files if re.search('.*notes\.txt',x))`,
StopIteration caught and printed), and the Hardware insert. -/
def processDate (env : RawEnv) (monkey rig task nsp date : String) : DateOut :=
  if !((env.session_files date).any fun x => x == "speedgoat") then
    ⟨[], [], [], ["Missing behavior files for session " ++ date]⟩
  else if !((env.session_files date).any fun x => x == "blackrock") then
    ⟨[], [], [], ["Missing ephys files for session " ++ date]⟩
  else
    match (env.session_files date).find? (fun x => containsSub "notes.txt" x) with
    | none =>
        ⟨[⟨date, monkey, rig, task⟩], [], [⟨date, monkey, nsp⟩],
         ["Missing notes for session " ++ date]⟩
    | some nf =>
        ⟨[⟨date, monkey, rig, task⟩], [⟨date, monkey, 0, env.read_notes date nf⟩],
         [⟨date, monkey, nsp⟩], []⟩

/-- The date loop of acquisition.py lines 128-171: each candidate date is
processed independently and its rows and messages accumulated. -/
def populateDates (env : RawEnv) (monkey rig task nsp : String) : List String → DateOut
  | [] => ⟨[], [], [], []⟩
  | d :: rest =>
      let o := processDate env monkey rig task nsp d
      let r := populateDates env monkey rig task nsp rest
      ⟨o.sessions ++ r.sessions, o.notes ++ r.notes,
       o.hardware ++ r.hardware, o.messages ++ r.messages⟩

/-- Session.populate (acquisition.py lines 91-171) for the Speedgoat / Cerebus
configuration: select and filter candidate dates against the current table,
run the date loop, and return the produced rows together with the new Session
table state. -/
def sessionPopulate (env : RawEnv) (table : List SessionRow)
    (monkey rig task nsp : String) (dates : List String) : DateOut × List SessionRow :=
  (populateDates env monkey rig task nsp (newSessionDates table env.raw_dir dates),
   table ++ (populateDates env monkey rig task nsp
      (newSessionDates table env.raw_dir dates)).sessions)

/-- Row of the BehaviorRecording table (acquisition.py lines 179-185). -/
structure BehaviorRow where
  session_date : String
  monkey : String
  behavior_summary_file_path : String
  behavior_sample_rate : Nat
deriving DecidableEq

/-- BehaviorRecording.make (acquisition.py lines 189-215) for a Speedgoat task
controller: `next(filter(lambda f: re.search('.*\.summary',f), speedgoat_files))`
raises StopIteration (modelled as the error outcome) when no file matches and
otherwise yields the first match of the listing, whose normalized path is
recorded together with the fixed 1000 Hz sample rate. The path normalizer
`EngramPath.ensureglobal` is an external collaborator, passed as a function. -/
def behaviorMake (session_date monkey raw_path : String) (speedgoat_files : List String)
    (ensureGlobal : String → String) : Except Unit BehaviorRow :=
  match speedgoat_files.find? (fun f => containsSub ".summary" f) with
  | none => Except.error ()
  | some f =>
      Except.ok ⟨session_date, monkey,
        ensureGlobal (raw_path ++ "/speedgoat/" ++ f), 1000⟩

/-- Channel label enumeration of EphysRecording.Channel (acquisition.py line 237). -/
inductive ChanLabel where
  | brain
  | emg
  | stim
  | sync
deriving DecidableEq

/-- The Python insert dict threaded through EphysRecording.make. Field presence
in the dict is modelled by `Option`; make starts from the session key with all
other fields absent. -/
structure EKey where
  session_date : String
  monkey : String
  ephys_file_id : Option Nat
  ephys_sample_rate : Option Nat
  ephys_duration : Option Nat
  ephys_file_path : Option String
  channel_index : Option Nat
  channel_id : Option Nat
  channel_label : Option ChanLabel
deriving DecidableEq

/-- Initial key of EphysRecording.make: the session key alone. -/
def initEKey (session_date monkey : String) : EKey :=
  ⟨session_date, monkey, none, none, none, none, none, none, none⟩

/-- One extended header entry of the vendor NSx reader. -/
structure NsxHeader where
  ElectrodeID : Nat
  ElectrodeLabel : String
deriving DecidableEq

/-- Content of one file under blackrock/ as exposed by the vendor reader: the
file name, the extended headers, and the first-channel sample rate and
duration returned by `getdata` (the float `data_time_s` is abstracted to a
natural number; only its propagation matters to the claims). -/
structure NsxFileData where
  name : String
  extended_headers : List NsxHeader
  samp_per_s : Nat
  data_time_s : Nat
deriving DecidableEq

/-- Starts-with-a-digit test: `re.search('^\d', label)` (acquisition.py line 289). -/
def startsWithDigit (s : String) : Bool :=
  match s.data with
  | c :: _ => c.isDigit
  | [] => false

/-- Ends-with `ainp[1-8]` test: `re.search('ainp[1-8]$', label)` (line 292). -/
def endsAinp18 (s : String) : Bool :=
  match s.data.reverse with
  | d :: 'p' :: 'n' :: 'i' :: 'a' :: _ => '1' ≤ d && d ≤ '8'
  | _ => false

/-- The label classification chain of acquisition.py lines 289-299, as a
function from a label to the branch outcome (`none` when no branch fires). -/
def classifyLabel (s : String) : Option ChanLabel :=
  if startsWithDigit s then some ChanLabel.brain
  else if endsAinp18 s then some ChanLabel.emg
  else if s == "ainp15" then some ChanLabel.stim
  else if s == "ainp16" then some ChanLabel.sync
  else none

/-- Channel dict construction of acquisition.py lines 286-299: copy the
primary key, set the channel index and electrode ID, and set the label only
when one of the four branches fires — otherwise whatever label the copied
primary key already carried stays in the dict. -/
def chanStep (primary : EKey) (j : Nat) (elec : NsxHeader) : EKey :=
  let k := { primary with channel_index := some j, channel_id := some elec.ElectrodeID }
  match classifyLabel elec.ElectrodeLabel with
  | some lab => { k with channel_label := some lab }
  | none => k

/-- Outcome of EphysRecording.make: inserted recording rows, inserted channel
rows, vendor file handles still open, handles closed, and whether an exception
escaped. -/
structure EphysOut where
  recRows : List EKey
  chanRows : List EKey
  openFiles : List String
  closedFiles : List String
  errored : Bool
deriving DecidableEq

/-- The channel loop of acquisition.py lines 285-301. `ok j` tells whether the
insert of channel `j` succeeds; on a raising insert the loop stops with the
rows inserted so far. Returns the inserted rows, the final value bound to the
Python variable `key` after the loop, and whether the loop completed. -/
def chanLoop (primary curKey : EKey) (ok : Nat → Bool) (j : Nat) :
    List NsxHeader → List EKey × EKey × Bool
  | [] => ([], curKey, true)
  | e :: es =>
      let k := chanStep primary j e
      if ok j then
        let r := chanLoop primary k ok (j + 1) es
        (k :: r.1, r.2)
      else ([], k, false)

/-- The file loop of acquisition.py lines 263-304. The Python `key` dict is
threaded across iterations exactly as in the source: `key['ephys_file_id'] = i`
mutates the dict left over from the previous iteration, and
`primary_key = key.copy()` snapshots it. Opening `NsxFile(pth)` registers the
handle; `nsx_file.getdata(nsx_file.extended_headers[0][...])` raises an
IndexError on an empty header list (handle left open); a raising channel
insert aborts make with the handle left open; `nsx_file.close()` runs only at
the end of a normally completed iteration. -/
def fileLoop (ensureGlobal : String → String) (ok : Nat → Nat → Bool) :
    List NsxFileData → EKey → Nat → EphysOut
  | [], _, _ => ⟨[], [], [], [], false⟩
  | f :: fs, key, i =>
      let key1 : EKey := { key with ephys_file_id := some i }
      let primary := key1
      if f.extended_headers.isEmpty then ⟨[], [], [f.name], [], true⟩
      else
        let key2 : EKey := { key1 with
          ephys_sample_rate := some f.samp_per_s,
          ephys_duration := some f.data_time_s,
          ephys_file_path := some (ensureGlobal ("blackrock/" ++ f.name)) }
        let c := chanLoop primary key2 (ok i) 0 f.extended_headers
        if c.2.2 then
          let rest := fileLoop ensureGlobal ok fs c.2.1 (i + 1)
          ⟨key2 :: rest.recRows, c.1 ++ rest.chanRows,
           rest.openFiles, f.name :: rest.closedFiles, rest.errored⟩
        else ⟨[key2], c.1, [f.name], [], true⟩

/-- EphysRecording.make (acquisition.py lines 242-304) for the Cerebus signal
processor: filter the blackrock listing by the NSx name pattern and run the
file loop from the bare session key. `ok i j` tells whether the insert of
channel `j` of file `i` succeeds; paths are abstracted to the file names under
blackrock/, composed with the external `ensureglobal` normalizer. -/
def ephysMake (session_date monkey : String) (blackrock_files : List NsxFileData)
    (ensureGlobal : String → String) (ok : Nat → Nat → Bool) : EphysOut :=
  fileLoop ensureGlobal ok (blackrock_files.filter fun f => isNsxName f.name)
    (initEKey session_date monkey) 0

/-- Filesystem environment used to instantiate the skip-and-continue theorem
for Session.populate: date d1 lacks the speedgoat directory, d2 has it but
lacks blackrock, d3 has both directories and no notes file, d4 has both
directories and two notes files. -/
def envSkip : RawEnv :=
  ⟨["d1", "d2", "d3", "d4"],
   fun d =>
     if d == "d1" then ["junk"]
     else if d == "d2" then ["speedgoat"]
     else if d == "d3" then ["speedgoat", "blackrock"]
     else ["speedgoat", "blackrock", "anotes.txt", "bnotes.txt"],
   fun _ f => "content of " ++ f⟩

/-- Filesystem environment for the exclusion counterexample: one candidate
date whose session directory has both required subdirectories. -/
def envC3 : RawEnv :=
  ⟨["2021-01-01"], fun _ => ["speedgoat", "blackrock"], fun _ _ => "notes"⟩

end Acquisition

namespace Acquisition

theorem lexLe_total : ∀ as bs, lexLe as bs = true ∨ lexLe bs as = true
  | [], _ => Or.inl rfl
  | _ :: _, [] => Or.inr rfl
  | a :: as, b :: bs => by
      rcases Nat.lt_trichotomy a.toNat b.toNat with h | h | h
      · left
        simp [lexLe, h]
      · rcases lexLe_total as bs with ih | ih
        · left
          simp [lexLe, h, ih]
        · right
          simp [lexLe, h.symm, ih]
      · right
        simp [lexLe, h]

theorem lexLe_trans : ∀ as bs cs, lexLe as bs = true → lexLe bs cs = true → lexLe as cs = true
  | [], _, _, _, _ => rfl
  | _ :: _, [], _, h, _ => by simp [lexLe] at h
  | _ :: _, _ :: _, [], _, h => by simp [lexLe] at h
  | a :: as, b :: bs, c :: cs, h1, h2 => by
      rcases Nat.lt_trichotomy a.toNat b.toNat with hab | hab | hab
      · rcases Nat.lt_trichotomy b.toNat c.toNat with hbc | hbc | hbc
        · simp [lexLe, Nat.lt_trans hab hbc]
        · simp [lexLe, hbc ▸ hab]
        · simp [lexLe, hbc, Nat.lt_asymm hbc] at h2
      · rcases Nat.lt_trichotomy b.toNat c.toNat with hbc | hbc | hbc
        · simp [lexLe, hab ▸ hbc]
        · have hac : a.toNat = c.toNat := hab.trans hbc
          simp only [lexLe, hab, hbc, lt_self_iff_false, if_false] at h1 h2
          simp only [lexLe, hac, lt_self_iff_false, if_false]
          exact lexLe_trans as bs cs h1 h2
        · simp [lexLe, hbc, Nat.lt_asymm hbc] at h2
      · simp [lexLe, hab, Nat.lt_asymm hab] at h1

theorem strLe_total (a b : String) : strLe a b = true ∨ strLe b a = true :=
  lexLe_total a.data b.data

theorem strLe_trans {a b c : String} (h1 : strLe a b = true) (h2 : strLe b c = true) :
    strLe a c = true :=
  lexLe_trans a.data b.data c.data h1 h2

theorem mem_orderedIns (x b : String) : ∀ l, b ∈ orderedIns x l ↔ b = x ∨ b ∈ l
  | [] => by simp [orderedIns]
  | y :: ys => by
      by_cases hxy : strLe x y = true
      · simp [orderedIns, hxy]
      · simp [orderedIns, hxy, mem_orderedIns x b ys]
        tauto

theorem sorted_orderedIns (x : String) :
    ∀ l, List.Sorted (fun a b => strLe a b = true) l →
      List.Sorted (fun a b => strLe a b = true) (orderedIns x l)
  | [], _ => by simp [orderedIns]
  | y :: ys, h => by
      have h1 := (List.sorted_cons.mp h).1
      have h2 := (List.sorted_cons.mp h).2
      by_cases hxy : strLe x y = true
      · simp only [orderedIns, hxy, if_true]
        refine List.sorted_cons.mpr ⟨?_, h⟩
        intro b hb
        rcases List.mem_cons.mp hb with rfl | hb
        · exact hxy
        · exact strLe_trans hxy (h1 b hb)
      · simp only [orderedIns, hxy, if_false]
        refine List.sorted_cons.mpr ⟨?_, sorted_orderedIns x ys h2⟩
        intro b hb
        rcases (mem_orderedIns x b ys).mp hb with rfl | hb
        · rcases strLe_total b y with hx | hy2
          · exact absurd hx hxy
          · exact hy2
        · exact h1 b hb

theorem mem_sortListing (b : String) : ∀ l, b ∈ sortListing l ↔ b ∈ l
  | [] => Iff.rfl
  | x :: xs => by
      show b ∈ orderedIns x (sortListing xs) ↔ b ∈ x :: xs
      rw [mem_orderedIns, mem_sortListing b xs, List.mem_cons]

theorem sorted_sortListing : ∀ l, List.Sorted (fun a b => strLe a b = true) (sortListing l)
  | [] => List.sorted_nil
  | x :: xs => sorted_orderedIns x _ (sorted_sortListing xs)

theorem find?_eq_filter_head? {α : Type} (p : α → Bool) :
    ∀ l : List α, l.find? p = (l.filter p).head?
  | [] => rfl
  | a :: l => by
      by_cases h : p a = true
      · rw [List.find?_cons_of_pos _ h, List.filter_cons_of_pos h, List.head?_cons]
      · rw [List.find?_cons_of_neg _ h, List.filter_cons_of_neg h,
          find?_eq_filter_head? p l]

theorem notInTable_iff (table : List SessionRow) (d : String) :
    notInTable table d = true ↔ ∀ row ∈ table, row.session_date ≠ d := by
  simp [notInTable, List.any_eq_true, beq_iff_eq]

theorem notInTable_append {t1 t2 : List SessionRow} {d : String}
    (h : notInTable (t1 ++ t2) d = true) : notInTable t1 d = true := by
  rw [notInTable_iff] at h ⊢
  intro row hrow
  exact h row (List.mem_append.mpr (Or.inl hrow))

theorem processDate_cases (env : RawEnv) (monkey rig task nsp d : String) :
    ((processDate env monkey rig task nsp d).sessions = [] ∧
      (processDate env monkey rig task nsp d).notes = [] ∧
      (processDate env monkey rig task nsp d).hardware = []) ∨
    (processDate env monkey rig task nsp d).sessions = [⟨d, monkey, rig, task⟩] := by
  unfold processDate
  split
  · exact Or.inl ⟨rfl, rfl, rfl⟩
  · split
    · exact Or.inl ⟨rfl, rfl, rfl⟩
    · split
      · exact Or.inr rfl
      · exact Or.inr rfl

theorem mem_populateDates_sessions (env : RawEnv) (m r t n : String) (s : SessionRow) :
    ∀ l, s ∈ (populateDates env m r t n l).sessions ↔
      ∃ d ∈ l, s ∈ (processDate env m r t n d).sessions
  | [] => by simp [populateDates]
  | d :: rest => by
      simp only [populateDates, List.mem_append,
        mem_populateDates_sessions env m r t n s rest, List.mem_cons]
      constructor
      · rintro (h | ⟨d2, hd2, hs⟩)
        · exact ⟨d, Or.inl rfl, h⟩
        · exact ⟨d2, Or.inr hd2, hs⟩
      · rintro ⟨d2, hd2 | hd2, hs⟩
        · exact Or.inl (hd2 ▸ hs)
        · exact Or.inr ⟨d2, hd2, hs⟩

theorem populateDates_empty (env : RawEnv) (m r t n : String) :
    ∀ l, (∀ d ∈ l, (processDate env m r t n d).sessions = [] ∧
        (processDate env m r t n d).notes = [] ∧
        (processDate env m r t n d).hardware = []) →
      (populateDates env m r t n l).sessions = [] ∧
      (populateDates env m r t n l).notes = [] ∧
      (populateDates env m r t n l).hardware = []
  | [], _ => ⟨rfl, rfl, rfl⟩
  | d :: rest, h => by
      have hd := h d (List.mem_cons_self d rest)
      have hr := populateDates_empty env m r t n rest
        (fun d2 hd2 => h d2 (List.mem_cons_of_mem d hd2))
      simp only [populateDates]
      exact ⟨by rw [hd.1, hr.1]; rfl, by rw [hd.2.1, hr.2.1]; rfl,
        by rw [hd.2.2, hr.2.2]; rfl⟩

theorem fileLoop_no_error_closes (g : String → String) (ok : Nat → Nat → Bool) :
    ∀ fs key i, (fileLoop g ok fs key i).errored = false →
      (fileLoop g ok fs key i).openFiles = [] ∧
      (fileLoop g ok fs key i).closedFiles = fs.map (fun f => f.name)
  | [], _, _, _ => ⟨rfl, rfl⟩
  | f :: fs, key, i, h => by
      simp only [fileLoop] at h ⊢
      split at h
      · exact Bool.noConfusion h
      · rename_i hE
        rw [if_neg hE]
        split at h
        · rename_i hC
          rw [if_pos hC]
          have ih := fileLoop_no_error_closes g ok fs _ (i + 1) h
          refine ⟨ih.1, ?_⟩
          rw [List.map_cons]
          exact congrArg (fun l => f.name :: l) ih.2
        · exact Bool.noConfusion h

/-- C7: with no explicit date list, the Session Scanner keeps exactly the raw
directory entries in which the YYYY-MM-DD pattern occurs (the containment test
computed by `re.search` on the sorted listing), the result is sorted in the
lexicographic code-point order used by Python `sorted`, and on the concrete
listing containing 2021-01-01, 2021-01-02 and scratch it returns exactly
[2021-01-01, 2021-01-02] in that order. -/
theorem C7_scanner_filter_and_order :
    (∀ raw_dir : List String,
        List.Sorted (fun a b => strLe a b = true) (selectDates raw_dir []) ∧
        ∀ x, x ∈ selectDates raw_dir [] ↔ x ∈ raw_dir ∧ containsDatePattern x = true) ∧
    selectDates ["2021-01-01", "2021-01-02", "scratch"] [] =
      ["2021-01-01", "2021-01-02"] := by
  constructor
  · intro raw_dir
    have he : selectDates raw_dir [] = (sortListing raw_dir).filter containsDatePattern := rfl
    constructor
    · rw [he]
      exact List.Pairwise.filter _ (sorted_sortListing raw_dir)
    · intro x
      rw [he, List.mem_filter, mem_sortListing]
  · decide

/-- C8: the date filter of the Session Scanner is a substring test, not a
full-name match: every listed entry in which the YYYY-MM-DD digit pattern
occurs anywhere is retained, and in particular backup-2021-01-01 and
2021-01-015 are retained although neither is exactly of the form YYYY-MM-DD. -/
theorem C8_substring_not_full_match (l : List String) (x : String)
    (hx : x ∈ l) (hp : containsDatePattern x = true) :
    x ∈ selectDates l [] ∧
    isExactDate "backup-2021-01-01" = false ∧
    isExactDate "2021-01-015" = false ∧
    selectDates ["backup-2021-01-01", "2021-01-015"] [] =
      ["2021-01-015", "backup-2021-01-01"] := by
  refine ⟨?_, by decide, by decide, by decide⟩
  have he : selectDates l [] = (sortListing l).filter containsDatePattern := rfl
  rw [he, List.mem_filter, mem_sortListing]
  exact ⟨hx, hp⟩

/-- Witness for C8 at a concrete listing. -/
theorem C8_substring_not_full_match_witness :
    "backup-2021-01-01" ∈ selectDates ["backup-2021-01-01"] [] ∧
    isExactDate "backup-2021-01-01" = false ∧
    isExactDate "2021-01-015" = false ∧
    selectDates ["backup-2021-01-01", "2021-01-015"] [] =
      ["2021-01-015", "backup-2021-01-01"] :=
  C8_substring_not_full_match ["backup-2021-01-01"] "backup-2021-01-01"
    (by decide) (by decide)

/-- C9: an explicitly empty date list behaves like giving no list at all
(Python `if dates:` is a truthiness test), so the scanner falls back to the
date-pattern filter instead of treating [] as an empty allow-list; on the
concrete listing the result is nonempty, while an empty allow-list
intersection would have been empty. -/
theorem C9_empty_date_list_falls_back :
    (∀ raw_dir : List String,
        selectDates raw_dir [] = (sortListing raw_dir).filter containsDatePattern) ∧
    selectDates ["2021-01-01", "scratch"] [] = ["2021-01-01"] ∧
    List.filter (fun d => List.contains ([] : List String) d)
      (sortListing ["2021-01-01", "scratch"]) = [] :=
  ⟨fun _ => rfl, by decide, by decide⟩

/-- C2 counterexample: with two files matching `*.summary` in the speedgoat
listing, BehaviorRecording.make does not raise; it inserts a row built from
the first match (the claim asserts an error and no insert for more than one
match). -/
theorem C2_counterexample :
    (List.filter (fun f => containsSub ".summary" f) ["a.summary", "b.summary"]).length = 2 ∧
    behaviorMake "2021-01-01" "monkeyA" "raw" ["a.summary", "b.summary"] id =
      Except.ok ⟨"2021-01-01", "monkeyA", "raw/speedgoat/a.summary", 1000⟩ :=
  ⟨by decide, rfl⟩

/-- C2 amended: BehaviorRecording.make raises (StopIteration) exactly when no
file in the speedgoat listing matches `*.summary`; when one or more files
match it inserts one row built from the first match in listing order. -/
theorem C2_amended_first_match (session_date monkey raw_path : String)
    (speedgoat_files : List String) (ensureGlobal : String → String) :
    (behaviorMake session_date monkey raw_path speedgoat_files ensureGlobal =
        Except.error () ↔
      speedgoat_files.filter (fun f => containsSub ".summary" f) = []) ∧
    ∀ f rest, speedgoat_files.filter (fun f => containsSub ".summary" f) = f :: rest →
      behaviorMake session_date monkey raw_path speedgoat_files ensureGlobal =
        Except.ok ⟨session_date, monkey,
          ensureGlobal (raw_path ++ "/speedgoat/" ++ f), 1000⟩ := by
  have hf := find?_eq_filter_head? (fun f => containsSub ".summary" f) speedgoat_files
  constructor
  · unfold behaviorMake
    rw [hf]
    cases hfl : speedgoat_files.filter (fun f => containsSub ".summary" f) with
    | nil => simp
    | cons a l => simp
  · intro f rest hrest
    unfold behaviorMake
    rw [hf, hrest]
    rfl

/-- Witness for C2 amended: two matching files, the first one is used. -/
theorem C2_amended_first_match_witness :
    behaviorMake "2021-01-01" "monkeyA" "raw" ["a.summary", "b.summary"] id =
      Except.ok ⟨"2021-01-01", "monkeyA", id ("raw" ++ "/speedgoat/" ++ "a.summary"), 1000⟩ :=
  (C2_amended_first_match "2021-01-01" "monkeyA" "raw" ["a.summary", "b.summary"] id).2
    "a.summary" ["b.summary"] (by decide)

/-- C1 evaluation at the failing input: a blackrock listing with the two
matching files foo_neu_001.ns5 and foo_neu_002.ns5, each holding one electrode
header. Two EphysRecording rows with file ids 0 and 1 are built, and each
file's Channel rows are numbered from zero, but the second recording row
additionally carries channel_index and channel_id values leaked from the first
file's last channel dict (the claim requires only session-key, file-id, path,
sample-rate and duration fields on every row, as the declared table heading
also does). -/
theorem C1_recording_row_field_leak :
    (ephysMake "2021-01-01" "monkeyA"
        [⟨"foo_neu_001.ns5", [⟨1, "137"⟩], 30000, 100⟩,
         ⟨"foo_neu_002.ns5", [⟨2, "137"⟩], 30000, 100⟩] id (fun _ _ => true)).recRows.map
      (fun k => (k.ephys_file_id, k.ephys_sample_rate, k.channel_index,
        k.channel_id, k.channel_label)) =
      [(some 0, some 30000, none, none, none),
       (some 1, some 30000, some 0, some 1, some ChanLabel.brain)] ∧
    (ephysMake "2021-01-01" "monkeyA"
        [⟨"foo_neu_001.ns5", [⟨1, "137"⟩], 30000, 100⟩,
         ⟨"foo_neu_002.ns5", [⟨2, "137"⟩], 30000, 100⟩] id (fun _ _ => true)).chanRows.map
      (fun k => (k.ephys_file_id, k.channel_index)) =
      [(some 0, some 0), (some 1, some 0)] := by
  decide

/-- C4 evaluation: the classification branches map 137 to brain, ainp3 to emg,
ainp15 to stim, ainp16 to sync and assign nothing to weird; but in the make
loop an unmatched label does not always yield an unlabeled Channel row: with a
first file ending in an ainp16 (sync) channel, the Channel row for the weird
electrode of the second file carries the stale sync label copied from the
previous file's last channel dict. -/
theorem C4_classification_and_stale_label :
    classifyLabel "137" = some ChanLabel.brain ∧
    classifyLabel "ainp3" = some ChanLabel.emg ∧
    classifyLabel "ainp15" = some ChanLabel.stim ∧
    classifyLabel "ainp16" = some ChanLabel.sync ∧
    classifyLabel "weird" = none ∧
    (ephysMake "2021-01-01" "monkeyA"
        [⟨"foo_neu_001.ns5", [⟨16, "ainp16"⟩], 30000, 100⟩,
         ⟨"foo_neu_002.ns5", [⟨7, "weird"⟩], 30000, 100⟩] id (fun _ _ => true)).chanRows.map
      (fun k => (k.ephys_file_id, k.channel_index, k.channel_label)) =
      [(some 0, some 0, some ChanLabel.sync), (some 1, some 0, some ChanLabel.sync)] := by
  decide

/-- C5 counterexample: when the insert of the second Channel row of a file
raises, EphysRecording.make aborts with the vendor file handle still open —
`nsx_file.close()` is only reached on the normal path, so the handle is left
open past the per-file iteration, contrary to the claim. -/
theorem C5_counterexample :
    let out := ephysMake "2021-01-01" "monkeyA"
      [⟨"foo_neu_001.ns5", [⟨1, "137"⟩, ⟨2, "138"⟩], 30000, 100⟩] id (fun _ j => j == 0)
    out.errored = true ∧ out.chanRows.length = 1 ∧
    out.openFiles = ["foo_neu_001.ns5"] ∧ out.closedFiles = [] := by
  decide

/-- C5 amended: the vendor file handle is closed after the file's processing
on runs where no exception occurs — every matched file's handle ends up
closed and none stays open; when a Channel insert raises mid-way, make aborts
with the current file's handle left open (see the counterexample). -/
theorem C5_amended_close_on_success (session_date monkey : String)
    (blackrock_files : List NsxFileData) (ensureGlobal : String → String)
    (ok : Nat → Nat → Bool)
    (h : (ephysMake session_date monkey blackrock_files ensureGlobal ok).errored = false) :
    (ephysMake session_date monkey blackrock_files ensureGlobal ok).openFiles = [] ∧
    (ephysMake session_date monkey blackrock_files ensureGlobal ok).closedFiles =
      (blackrock_files.filter fun f => isNsxName f.name).map (fun f => f.name) :=
  fileLoop_no_error_closes ensureGlobal ok _ _ 0 h

/-- Witness for C5 amended on a normally completing run. -/
theorem C5_amended_close_on_success_witness :
    (ephysMake "2021-01-01" "monkeyA"
        [⟨"foo_neu_001.ns5", [⟨1, "137"⟩], 30000, 100⟩] id (fun _ _ => true)).openFiles = [] ∧
    (ephysMake "2021-01-01" "monkeyA"
        [⟨"foo_neu_001.ns5", [⟨1, "137"⟩], 30000, 100⟩] id (fun _ _ => true)).closedFiles =
      ["foo_neu_001.ns5"] :=
  C5_amended_close_on_success "2021-01-01" "monkeyA"
    [⟨"foo_neu_001.ns5", [⟨1, "137"⟩], 30000, 100⟩] id (fun _ _ => true) (by decide)

/-- C3 counterexample: the Session table holds a row for 2021-01-01 belonging
to a different monkey only, yet populate for monkeyA excludes the date (the
code restricts by `session_date` alone, acquisition.py line 126) and inserts
nothing, although the session directory has both required subdirectories and
would otherwise be ingested. -/
theorem C3_counterexample :
    (∀ row ∈ ([⟨"2021-01-01", "monkeyB", "rigB", "pacman"⟩] : List SessionRow),
        ¬(row.session_date = "2021-01-01" ∧ row.monkey = "monkeyA")) ∧
    newSessionDates [⟨"2021-01-01", "monkeyB", "rigB", "pacman"⟩] envC3.raw_dir [] = [] ∧
    (sessionPopulate envC3 [⟨"2021-01-01", "monkeyB", "rigB", "pacman"⟩]
        "monkeyA" "rigA" "pacman" "Cerebus" []).2 =
      [⟨"2021-01-01", "monkeyB", "rigB", "pacman"⟩] ∧
    (processDate envC3 "monkeyA" "rigA" "pacman" "Cerebus" "2021-01-01").sessions ≠ [] := by
  decide

/-- C3 amended: a candidate date is excluded exactly when a Session row with
that date already exists for any subject (not only for the monkey being
populated); with that reading, running populate twice on the same input
directory tree yields the same final Session row set as running it once. -/
theorem C3_amended_any_subject_and_idempotent (env : RawEnv) (table : List SessionRow)
    (monkey rig task nsp : String) (dates : List String) :
    (∀ d, d ∈ newSessionDates table env.raw_dir dates ↔
        d ∈ selectDates env.raw_dir dates ∧ ∀ row ∈ table, row.session_date ≠ d) ∧
    (sessionPopulate env (sessionPopulate env table monkey rig task nsp dates).2
        monkey rig task nsp dates).2 =
      (sessionPopulate env table monkey rig task nsp dates).2 := by
  constructor
  · intro d
    rw [newSessionDates, List.mem_filter, notInTable_iff]
  · have hall : ∀ d ∈ newSessionDates
        (table ++ (populateDates env monkey rig task nsp
          (newSessionDates table env.raw_dir dates)).sessions) env.raw_dir dates,
        (processDate env monkey rig task nsp d).sessions = [] ∧
        (processDate env monkey rig task nsp d).notes = [] ∧
        (processDate env monkey rig task nsp d).hardware = [] := by
      intro d hd
      rw [newSessionDates, List.mem_filter] at hd
      obtain ⟨hcand, hnot⟩ := hd
      rcases processDate_cases env monkey rig task nsp d with hskip | hins
      · exact hskip
      · exfalso
        have hd1 : d ∈ newSessionDates table env.raw_dir dates := by
          rw [newSessionDates, List.mem_filter]
          exact ⟨hcand, notInTable_append hnot⟩
        have hmem : (⟨d, monkey, rig, task⟩ : SessionRow) ∈
            (populateDates env monkey rig task nsp
              (newSessionDates table env.raw_dir dates)).sessions := by
          rw [mem_populateDates_sessions]
          exact ⟨d, hd1, by simp [hins]⟩
        rw [notInTable_iff] at hnot
        exact hnot ⟨d, monkey, rig, task⟩ (List.mem_append.mpr (Or.inr hmem)) rfl
    have h0 := populateDates_empty env monkey rig task nsp _ hall
    show (sessionPopulate env _ monkey rig task nsp dates).2 = _
    unfold sessionPopulate
    rw [h0.1, List.append_nil]

/-- C6: for a candidate date whose session directory lacks the speedgoat
subdirectory, Session.populate inserts no row, emits the missing-behavior
message, and the remaining dates contribute unchanged; a missing blackrock
directory likewise skips with a message, and a missing notes file still
inserts the Session and Hardware rows with a message — no missing-artifact
condition aborts the run. -/
theorem C6_skip_and_continue (env : RawEnv) (monkey rig task nsp d : String)
    (rest : List String) :
    (((env.session_files d).any fun x => x == "speedgoat") = false →
      populateDates env monkey rig task nsp (d :: rest) =
        ⟨(populateDates env monkey rig task nsp rest).sessions,
         (populateDates env monkey rig task nsp rest).notes,
         (populateDates env monkey rig task nsp rest).hardware,
         ("Missing behavior files for session " ++ d) ::
           (populateDates env monkey rig task nsp rest).messages⟩) ∧
    (((env.session_files d).any fun x => x == "speedgoat") = true →
      ((env.session_files d).any fun x => x == "blackrock") = false →
      populateDates env monkey rig task nsp (d :: rest) =
        ⟨(populateDates env monkey rig task nsp rest).sessions,
         (populateDates env monkey rig task nsp rest).notes,
         (populateDates env monkey rig task nsp rest).hardware,
         ("Missing ephys files for session " ++ d) ::
           (populateDates env monkey rig task nsp rest).messages⟩) ∧
    (((env.session_files d).any fun x => x == "speedgoat") = true →
      ((env.session_files d).any fun x => x == "blackrock") = true →
      (env.session_files d).find? (fun x => containsSub "notes.txt" x) = none →
      populateDates env monkey rig task nsp (d :: rest) =
        ⟨⟨d, monkey, rig, task⟩ :: (populateDates env monkey rig task nsp rest).sessions,
         (populateDates env monkey rig task nsp rest).notes,
         ⟨d, monkey, nsp⟩ :: (populateDates env monkey rig task nsp rest).hardware,
         ("Missing notes for session " ++ d) ::
           (populateDates env monkey rig task nsp rest).messages⟩) := by
  refine ⟨?_, ?_, ?_⟩
  · intro h1
    simp [populateDates, processDate, h1]
  · intro h1 h2
    simp [populateDates, processDate, h1, h2]
  · intro h1 h2 h3
    simp [populateDates, processDate, h1, h2, h3]

/-- Witness for C6 over the concrete skip environment. -/
theorem C6_skip_and_continue_witness :
    populateDates envSkip "monkeyA" "rigA" "pacman" "Cerebus" ["d1"] =
      ⟨[], [], [], ["Missing behavior files for session d1"]⟩ ∧
    populateDates envSkip "monkeyA" "rigA" "pacman" "Cerebus" ["d2"] =
      ⟨[], [], [], ["Missing ephys files for session d2"]⟩ ∧
    populateDates envSkip "monkeyA" "rigA" "pacman" "Cerebus" ["d3"] =
      ⟨[⟨"d3", "monkeyA", "rigA", "pacman"⟩], [],
       [⟨"d3", "monkeyA", "Cerebus"⟩], ["Missing notes for session d3"]⟩ := by
  refine ⟨?_, ?_, ?_⟩
  · exact (C6_skip_and_continue envSkip "monkeyA" "rigA" "pacman" "Cerebus" "d1" []).1
      (by decide)
  · exact (C6_skip_and_continue envSkip "monkeyA" "rigA" "pacman" "Cerebus" "d2" []).2.1
      (by decide) (by decide)
  · exact (C6_skip_and_continue envSkip "monkeyA" "rigA" "pacman" "Cerebus" "d3" []).2.2
      (by decide) (by decide) (by decide)

/-- C10: when more than one file of a session directory matches `*notes.txt`,
Session.populate reads and inserts only the first match in listing order, the
inserted notes row carries note id 0 (as every inserted notes row does), and
no message is emitted about the ignored remaining notes files. -/
theorem C10_first_notes_only (env : RawEnv) (monkey rig task nsp d : String)
    (f g : String) (rest : List String)
    (h1 : ((env.session_files d).any fun x => x == "speedgoat") = true)
    (h2 : ((env.session_files d).any fun x => x == "blackrock") = true)
    (h3 : (env.session_files d).filter (fun x => containsSub "notes.txt" x) = f :: g :: rest) :
    (processDate env monkey rig task nsp d).notes =
      [⟨d, monkey, 0, env.read_notes d f⟩] ∧
    (processDate env monkey rig task nsp d).messages = [] ∧
    ∀ (env2 : RawEnv) (m2 r2 t2 n2 d2 : String),
      ∀ row ∈ (processDate env2 m2 r2 t2 n2 d2).notes, row.session_notes_id = 0 := by
  have hfind : (env.session_files d).find? (fun x => containsSub "notes.txt" x) = some f := by
    rw [find?_eq_filter_head?, h3]
    rfl
  refine ⟨?_, ?_, ?_⟩
  · simp [processDate, h1, h2, hfind]
  · simp [processDate, h1, h2, hfind]
  · intro env2 m2 r2 t2 n2 d2 row hrow
    unfold processDate at hrow
    split at hrow
    · simp at hrow
    · split at hrow
      · simp at hrow
      · split at hrow
        · simp at hrow
        · rw [List.mem_singleton] at hrow
          rw [hrow]

/-- Witness for C10: a session directory with two notes files. -/
theorem C10_first_notes_only_witness :
    (processDate envSkip "monkeyA" "rigA" "pacman" "Cerebus" "d4").notes =
      [⟨"d4", "monkeyA", 0, "content of anotes.txt"⟩] ∧
    (processDate envSkip "monkeyA" "rigA" "pacman" "Cerebus" "d4").messages = [] :=
  ⟨(C10_first_notes_only envSkip "monkeyA" "rigA" "pacman" "Cerebus" "d4"
      "anotes.txt" "bnotes.txt" [] (by decide) (by decide) (by decide)).1,
   (C10_first_notes_only envSkip "monkeyA" "rigA" "pacman" "Cerebus" "d4"
      "anotes.txt" "bnotes.txt" [] (by decide) (by decide) (by decide)).2.1⟩

end Acquisition

